import Mathlib

/-!
Verification of the NAP control plane (ECMP / HULA controllers).

Shallow embedding of `src/controller/switch_manager.py`,
`src/controller/ecmp_controller.py` and `src/controller/hula_controller.py`.
Python integers are modelled as `Int`/`Nat`; `int.to_bytes` overflow
(Python raises `OverflowError`) is modelled with `Except Unit`; an
uncaught Python exception is the `.error` case, a normal return the
`.ok` case.
-/

namespace NAP

/-- Big-endian byte list of `v` in `n` bytes: the value returned by
Python `v.to_bytes(n, byteorder=big)` when it does not raise. -/
def natToBE : Nat → Nat → List Nat
  | _, 0 => []
  | v, n + 1 => v / 256 ^ n :: natToBE (v % 256 ^ n) n

/-- Decode a big-endian byte list back to a natural number. -/
def beToNat (l : List Nat) : Nat :=
  l.foldl (fun a b => a * 256 + b) 0

/-- `switch_manager.int_to_bytes`: `num.to_bytes(num_bytes, byteorder=big)`.
Python raises `OverflowError` when `num` is negative or does not fit in
`num_bytes` bytes; that is the `.error ()` case. -/
def int_to_bytes (num : Int) (numBytes : Nat) : Except Unit (List Nat) :=
  if num < 0 ∨ (256 : Int) ^ numBytes ≤ num then .error ()
  else .ok (natToBE num.toNat numBytes)

/-- An IPv4 address as its four dotted components
(`"a.b.c.d"` already split, as `ip_to_int` splits it). -/
structure Ip where
  a : Nat
  b : Nat
  c : Nat
  d : Nat
deriving DecidableEq

/-- `switch_manager.ip_to_int`. -/
def ip_to_int (ip : Ip) : Int :=
  ((ip.a * 2 ^ 24 + ip.b * 2 ^ 16 + ip.c * 2 ^ 8 + ip.d : Nat) : Int)

/-- One Thrift match parameter (`BmMatchParam`): LPM carries a key and a
mask length, EXACT carries only a key. -/
inductive MatchParam where
  | lpm (key : List Nat) (pfxLen : Nat)
  | exact (key : List Nat)
deriving DecidableEq

/-- A table operation issued to the switch through `SwitchManager`. -/
inductive TableOp where
  | addEntry (table : String) (matchKey : List MatchParam)
      (action : String) (params : List (List Nat))
  | deleteEntry (table : String) (handle : Nat)
  | clearTable (table : String)
deriving DecidableEq

def isAddEntry : TableOp → Bool
  | .addEntry _ _ _ _ => true
  | _ => false

def isDeleteEntry : TableOp → Bool
  | .deleteEntry _ _ => true
  | _ => false

/-- Number of `addEntry` operations in a trace. -/
def addCount (t : List TableOp) : Nat :=
  t.countP isAddEntry

/-- Number of `deleteEntry` operations in a trace. -/
def deleteCount (t : List TableOp) : Nat :=
  t.countP isDeleteEntry

/-- A link-layer frame as scapy builds it:
`Ether(src, dst, type=0x1234) / Raw(load=payload)`. -/
structure EtherFrame where
  srcMac : List Nat
  dstMac : List Nat
  etherType : Nat
  payload : List Nat
deriving DecidableEq

/-- `HULAController.create_hula_probe`: builds the payload
`bytes([1, 0, 0, 0]) + int_to_bytes(ts, 4) + int_to_bytes(dst_tor_id, 4)`
behind an Ethernet header. `ts` is the value of `int(time.time())` at the
moment of emission, passed explicitly. -/
def create_hula_probe (ts : Int) (dstTorId : Int) (srcMac dstMac : List Nat) :
    Except Unit EtherFrame :=
  match int_to_bytes ts 4 with
  | .error e => .error e
  | .ok tsBytes =>
    match int_to_bytes dstTorId 4 with
    | .error e => .error e
    | .ok torBytes =>
      .ok ⟨srcMac, dstMac, 0x1234, [1, 0, 0, 0] ++ tsBytes ++ torBytes⟩

/-- One next hop from a switch configuration: `{"port": .., "mac": ..}`.
The MAC is kept as its byte list (the value of `mac_to_bytes`). -/
structure NextHop where
  port : Int
  mac : List Nat
deriving DecidableEq

/-- One entry of `switch_config[ecmp_groups]`. -/
structure EcmpGroup where
  dstPfx : Ip
  pfxLen : Nat
  groupId : Int
  nextHops : List NextHop
deriving DecidableEq

/-- The `switch_config` dictionary passed to `ECMPController.configure_switch`. -/
structure SwitchConfig where
  switchId : String
  ecmpGroups : List EcmpGroup
deriving DecidableEq

/-- `ECMPController.add_ecmp_group`: one `addEntry` on table `ecmp_group`
with an LPM match on the destination prefix and action parameters
`[group_id (2 bytes), num_paths (2 bytes)]`. An `OverflowError` from
`int_to_bytes` propagates (the method has no handler). -/
def add_ecmp_group (dstPfx : Ip) (pfxLen : Nat) (groupId : Int)
    (numPaths : Int) : Except Unit TableOp :=
  match int_to_bytes (ip_to_int dstPfx) 4 with
  | .error e => .error e
  | .ok key =>
    match int_to_bytes groupId 2 with
    | .error e => .error e
    | .ok gid =>
      match int_to_bytes numPaths 2 with
      | .error e => .error e
      | .ok np =>
        .ok (.addEntry "ecmp_group" [.lpm key pfxLen] "set_ecmp_group" [gid, np])

/-- `ECMPController.add_next_hop`: one `addEntry` on table `ecmp_nhop` with
EXACT matches on `(group_id, hash_val)` and action parameters
`[dst_mac, port (2 bytes)]`. An `OverflowError` propagates. -/
def add_next_hop (groupId : Int) (hashVal : Int) (port : Int)
    (mac : List Nat) : Except Unit TableOp :=
  match int_to_bytes groupId 2 with
  | .error e => .error e
  | .ok gid =>
    match int_to_bytes hashVal 2 with
    | .error e => .error e
    | .ok hv =>
      match int_to_bytes port 2 with
      | .error e => .error e
      | .ok p =>
        .ok (.addEntry "ecmp_nhop" [.exact gid, .exact hv] "set_nhop" [mac, p])

/-- The `for idx, nhop in enumerate(next_hops)` loop inside
`ECMPController.configure_switch`, started at index `idx`. -/
def nextHopOps (groupId : Int) : Nat → List NextHop → Except Unit (List TableOp)
  | _, [] => .ok []
  | idx, nh :: rest =>
    match add_next_hop groupId (Int.ofNat idx) nh.port nh.mac with
    | .error e => .error e
    | .ok op =>
      match nextHopOps groupId (idx + 1) rest with
      | .error e => .error e
      | .ok ops => .ok (op :: ops)

/-- The body of `configure_switch` for one group: `add_ecmp_group` with
`num_paths = len(next_hops)`, then the enumerated next hops. -/
def groupOps (g : EcmpGroup) : Except Unit (List TableOp) :=
  match add_ecmp_group g.dstPfx g.pfxLen g.groupId (Int.ofNat g.nextHops.length) with
  | .error e => .error e
  | .ok gop =>
    match nextHopOps g.groupId 0 g.nextHops with
    | .error e => .error e
    | .ok nops => .ok (gop :: nops)

/-- The `for group in switch_config.get(ecmp_groups, [])` loop. -/
def configureGroups : List EcmpGroup → Except Unit (List TableOp)
  | [] => .ok []
  | g :: rest =>
    match groupOps g with
    | .error e => .error e
    | .ok ops =>
      match configureGroups rest with
      | .error e => .error e
      | .ok more => .ok (ops ++ more)

/-- `ECMPController.configure_switch`: the trace of table operations it
issues for one switch configuration. The controller keeps no record of
previously applied entries, so the trace is a function of the
configuration alone. -/
def configure_switch (cfg : SwitchConfig) : Except Unit (List TableOp) :=
  configureGroups cfg.ecmpGroups

/-- `ECMPController.populate_from_topology`: for each switch, `connect()`;
on failure `continue` (skip that switch), otherwise configure it. `conn`
tells whether connecting to a given switch id succeeds. The result pairs
each successfully connected switch id with the operations issued to it. -/
def populate_from_topology (conn : String → Bool) :
    List SwitchConfig → Except Unit (List (String × List TableOp))
  | [] => .ok []
  | s :: rest =>
    if conn s.switchId then
      match configure_switch s with
      | .error e => .error e
      | .ok ops =>
        match populate_from_topology conn rest with
        | .error e => .error e
        | .ok r => .ok ((s.switchId, ops) :: r)
    else
      populate_from_topology conn rest

/-- Running `configure_switch` twice in a row against the same
configuration with no state change in between. `ECMPController` holds no
applied-entry bookkeeping (its only fields are the manager handle and the
loaded topology), so the second call re-executes identically. -/
def runTwice (cfg : SwitchConfig) :
    Except Unit (List TableOp × List TableOp) :=
  match configure_switch cfg with
  | .error e => .error e
  | .ok t1 =>
    match configure_switch cfg with
    | .error e => .error e
    | .ok t2 => .ok (t1, t2)

/-- Outcome of one Thrift RPC call. The channel is modelled as an oracle
giving the outcome of the k-th call issued on the connection. -/
inductive RpcResult where
  | ok
  | err
deriving DecidableEq

/-- `SwitchManager.add_table_entry`: wraps exactly one Thrift call
(call number `k`) in `try/except`; on any exception it prints the error
and returns `False`, on success `True`. There is no retry loop in the
source: exactly one call is made per invocation, so the call counter
advances by one. -/
def add_table_entry (oracle : Nat → RpcResult) (k : Nat) : Bool × Nat :=
  match oracle k with
  | .ok => (true, k + 1)
  | .err => (false, k + 1)

/-- `SwitchManager.delete_table_entry`: same single-attempt shape as
`add_table_entry`. -/
def delete_table_entry (oracle : Nat → RpcResult) (k : Nat) : Bool × Nat :=
  match oracle k with
  | .ok => (true, k + 1)
  | .err => (false, k + 1)

/-- Executing a list of table operations the way both controllers do:
each operation is handed to the manager, whose boolean result is ignored,
and the loop continues with the next entry regardless of failure. -/
def runOps (oracle : Nat → RpcResult) : Nat → List TableOp → List Bool × Nat
  | k, [] => ([], k)
  | k, _ :: rest =>
    let r := add_table_entry oracle k
    let rr := runOps oracle r.2 rest
    (r.1 :: rr.1, rr.2)

/-- `SwitchManager.read_register`: returns the Thrift result on success
and `-1` from the `except` handler on any failure; it never raises
(totality of this function is the embedded form of that fact). -/
def read_register (rpc : Except Unit Int) : Int :=
  match rpc with
  | .ok v => v
  | .error _ => -1

/-- Program counter of `HULAController.inject_probes`, which runs
`while self.running: (send one packet per probe descriptor);
time.sleep(probe_interval)`. `sending l` means the packets in `l` are
still to be sent this tick; `done` means `inject_probes` has returned
(so `join()` can return). -/
inductive ThreadPc where
  | loopHead
  | sending (remaining : List Nat)
  | sleeping
  | done
deriving DecidableEq

/-- Shared state: the `running` flag and the injection thread position. -/
structure ProbeSysState where
  running : Bool
  pc : ThreadPc
deriving DecidableEq

/-- One step of the injection thread, parameterised by the probe list
`cfg` sent each tick and the current value of the `running` flag. The
flag is read only at the loop head, as in the source. -/
inductive ThreadStep (cfg : List Nat) : Bool → ThreadPc → Option Nat → ThreadPc → Prop where
  | checkRun : ThreadStep cfg true .loopHead none (.sending cfg)
  | checkStop : ThreadStep cfg false .loopHead none .done
  | send (r : Bool) (p : Nat) (rest : List Nat) :
      ThreadStep cfg r (.sending (p :: rest)) (some p) (.sending rest)
  | sleepStart (r : Bool) : ThreadStep cfg r (.sending []) none .sleeping
  | tick (r : Bool) : ThreadStep cfg r .sleeping none .loopHead

/-- One step of the whole system: either the injection thread moves, or
the stopping caller executes `self.running = False`
(`stop_probe_injection` before its `join()`). A label `some p` is the
emission of probe `p`. -/
inductive SysStep (cfg : List Nat) : ProbeSysState → Option Nat → ProbeSysState → Prop where
  | thread {r : Bool} {pc : ThreadPc} {ev : Option Nat} {pc2 : ThreadPc} :
      ThreadStep cfg r pc ev pc2 → SysStep cfg ⟨r, pc⟩ ev ⟨r, pc2⟩
  | stopSignal (s : ProbeSysState) : SysStep cfg s none ⟨false, s.pc⟩

/-- Multi-step execution collecting the emitted probe packets. -/
inductive SysReaches (cfg : List Nat) : ProbeSysState → List Nat → ProbeSysState → Prop where
  | refl (s : ProbeSysState) : SysReaches cfg s [] s
  | step {s : ProbeSysState} {ev : Option Nat} {s2 : ProbeSysState}
      {evs : List Nat} {s3 : ProbeSysState} :
      SysStep cfg s ev s2 → SysReaches cfg s2 evs s3 →
      SysReaches cfg s (ev.toList ++ evs) s3

/-- A register read-back `(utilization, egress port)` with the timestamp
of the probe that set it. -/
structure RegisterReading where
  util : Nat
  port : Nat
  ts : Nat
deriving DecidableEq

/-- Modelled from the spec: the FlowletController path-switch rule of
§4.5 is not implemented under `src/` (the repository only installs static
flowlet entries; the switching decision belongs to the dataplane design
the spec describes). Per the spec, a candidate reading triggers a switch
intent only when it names a different port, is fresher, and has strictly
lower utilization than the installed reading; otherwise no intent. -/
def flowletSwitchIntent (current cand : RegisterReading) : Option Nat :=
  if cand.port ≠ current.port ∧ current.ts < cand.ts ∧ cand.util < current.util then
    some cand.port
  else
    none

/-- The spec scenario group: prefix `10.0.1.0/24`, group 1, next hops on
ports 1 and 2. -/
def scenarioGroup : EcmpGroup :=
  ⟨⟨10, 0, 1, 0⟩, 24, 1, [⟨1, [0, 0, 0, 0, 1, 1]⟩, ⟨2, [0, 0, 0, 0, 1, 2]⟩]⟩

/-- The spec scenario switch configuration. -/
def scenarioConfig : SwitchConfig :=
  ⟨"s1", [scenarioGroup]⟩

/-- The trace `configure_switch` issues for the scenario configuration:
one group entry plus one next-hop entry per path. -/
def scenarioOps : List TableOp :=
  [.addEntry "ecmp_group" [.lpm [10, 0, 1, 0] 24] "set_ecmp_group" [[0, 1], [0, 2]],
   .addEntry "ecmp_nhop" [.exact [0, 1], .exact [0, 0]] "set_nhop" [[0, 0, 0, 0, 1, 1], [0, 1]],
   .addEntry "ecmp_nhop" [.exact [0, 1], .exact [0, 1]] "set_nhop" [[0, 0, 0, 0, 1, 2], [0, 2]]]

/-- An RPC channel whose first call fails and whose later calls succeed:
a single retry after the first failure would succeed. -/
def failThenOk : Nat → RpcResult :=
  fun k => if k = 0 then .err else .ok

/-! ## Helper lemmas -/

theorem natToBE_length (v n : Nat) : (natToBE v n).length = n := by
  induction n generalizing v with
  | zero => rfl
  | succ n ih => simp [natToBE, ih]

theorem beToNat_aux (acc : Nat) (v n : Nat) (h : v < 256 ^ n) :
    (natToBE v n).foldl (fun a b => a * 256 + b) acc = acc * 256 ^ n + v := by
  induction n generalizing v acc with
  | zero =>
    interval_cases v
    simp [natToBE]
  | succ n ih =>
    have hlt : v % 256 ^ n < 256 ^ n := Nat.mod_lt _ (Nat.pos_pow_of_pos n (by norm_num))
    simp only [natToBE, List.foldl_cons]
    rw [ih _ _ hlt]
    have hdm : 256 ^ n * (v / 256 ^ n) + v % 256 ^ n = v := Nat.div_add_mod v (256 ^ n)
    ring_nf
    ring_nf at hdm
    omega

theorem beToNat_natToBE (v n : Nat) (h : v < 256 ^ n) :
    beToNat (natToBE v n) = v := by
  have := beToNat_aux 0 v n h
  simpa [beToNat] using this

theorem int_to_bytes_ok (num : Int) (n : Nat) (h0 : 0 ≤ num)
    (h1 : num < (256 : Int) ^ n) :
    int_to_bytes num n = .ok (natToBE num.toNat n) := by
  have hcond : ¬(num < 0 ∨ (256 : Int) ^ n ≤ num) := by
    push_neg
    exact ⟨h0, h1⟩
  simp [int_to_bytes, hcond]

theorem int_to_bytes_err (num : Int) (n : Nat)
    (h : num < 0 ∨ (256 : Int) ^ n ≤ num) :
    int_to_bytes num n = .error () := by
  simp [int_to_bytes, h]

theorem add_next_hop_ok (gid hv p : Int) (m : List Nat)
    (hg0 : 0 ≤ gid) (hg1 : gid < 65536) (hv0 : 0 ≤ hv) (hv1 : hv < 65536)
    (hp0 : 0 ≤ p) (hp1 : p < 65536) :
    add_next_hop gid hv p m =
      .ok (.addEntry "ecmp_nhop" [.exact (natToBE gid.toNat 2), .exact (natToBE hv.toNat 2)]
        "set_nhop" [m, natToBE p.toNat 2]) := by
  have e2 : ((256 : Int) ^ 2) = 65536 := by norm_num
  rw [add_next_hop, int_to_bytes_ok gid 2 hg0 (by rw [e2]; exact hg1),
    int_to_bytes_ok hv 2 hv0 (by rw [e2]; exact hv1),
    int_to_bytes_ok p 2 hp0 (by rw [e2]; exact hp1)]

theorem nextHopOps_enumFrom (gid : Int) (hg0 : 0 ≤ gid) (hg1 : gid < 65536)
    (l : List NextHop) :
    ∀ idx : Nat, (∀ nh ∈ l, 0 ≤ nh.port ∧ nh.port < 65536) →
    idx + l.length ≤ 65536 →
    nextHopOps gid idx l = .ok ((l.enumFrom idx).map fun pr =>
      TableOp.addEntry "ecmp_nhop"
        [.exact (natToBE gid.toNat 2), .exact (natToBE pr.1 2)]
        "set_nhop" [pr.2.mac, natToBE pr.2.port.toNat 2]) := by
  induction l with
  | nil => intro idx _ _; rfl
  | cons nh rest ih =>
    intro idx hports hlen
    have hport := hports nh (List.mem_cons_self nh rest)
    have hidxN : idx < 65536 := by
      simp only [List.length_cons] at hlen
      omega
    have hidx : (Int.ofNat idx) < 65536 := by
      rw [Int.ofNat_eq_natCast]
      exact_mod_cast hidxN
    have hstep := add_next_hop_ok gid (Int.ofNat idx) nh.port nh.mac hg0 hg1
      (Int.ofNat_zero_le idx) hidx hport.1 hport.2
    rw [show (Int.ofNat idx).toNat = idx from rfl] at hstep
    have hrest : nextHopOps gid (idx + 1) rest = .ok ((rest.enumFrom (idx + 1)).map fun pr =>
        TableOp.addEntry "ecmp_nhop"
          [.exact (natToBE gid.toNat 2), .exact (natToBE pr.1 2)]
          "set_nhop" [pr.2.mac, natToBE pr.2.port.toNat 2]) := by
      apply ih (idx + 1) (fun x hx => hports x (List.mem_cons_of_mem nh hx))
      simp only [List.length_cons] at hlen
      omega
    simp only [nextHopOps]
    rw [hstep, hrest]
    rfl

theorem add_ecmp_group_isAdd (d : Ip) (pl : Nat) (gid np : Int) (op : TableOp)
    (h : add_ecmp_group d pl gid np = .ok op) : isAddEntry op = true := by
  unfold add_ecmp_group at h
  repeat' split at h
  · exact Except.noConfusion h
  · exact Except.noConfusion h
  · exact Except.noConfusion h
  · cases h; rfl

theorem add_next_hop_isAdd (gid hv p : Int) (m : List Nat) (op : TableOp)
    (h : add_next_hop gid hv p m = .ok op) : isAddEntry op = true := by
  unfold add_next_hop at h
  repeat' split at h
  · exact Except.noConfusion h
  · exact Except.noConfusion h
  · exact Except.noConfusion h
  · cases h; rfl

theorem nextHopOps_allAdds (gid : Int) :
    ∀ (l : List NextHop) (idx : Nat) (ops : List TableOp),
    nextHopOps gid idx l = .ok ops → ∀ op ∈ ops, isAddEntry op = true := by
  intro l
  induction l with
  | nil =>
    intro idx ops h op hop
    simp only [nextHopOps] at h
    cases h
    simp at hop
  | cons nh rest ih =>
    intro idx ops h op hop
    simp only [nextHopOps] at h
    split at h
    · exact absurd h (by simp)
    · rename_i op1 h1
      split at h
      · exact absurd h (by simp)
      · rename_i ops1 h2
        cases h
        rcases List.mem_cons.mp hop with rfl | hmem
        · exact add_next_hop_isAdd _ _ _ _ _ h1
        · exact ih _ _ h2 op hmem

theorem groupOps_allAdds (g : EcmpGroup) (ops : List TableOp)
    (h : groupOps g = .ok ops) : ∀ op ∈ ops, isAddEntry op = true := by
  unfold groupOps at h
  split at h
  · exact absurd h (by simp)
  · rename_i gop h1
    split at h
    · exact absurd h (by simp)
    · rename_i nops h2
      cases h
      intro op hop
      rcases List.mem_cons.mp hop with rfl | hmem
      · exact add_ecmp_group_isAdd _ _ _ _ _ h1
      · exact nextHopOps_allAdds _ _ _ _ h2 op hmem

theorem configureGroups_allAdds :
    ∀ (gs : List EcmpGroup) (ops : List TableOp),
    configureGroups gs = .ok ops → ∀ op ∈ ops, isAddEntry op = true := by
  intro gs
  induction gs with
  | nil =>
    intro ops h op hop
    simp only [configureGroups] at h
    cases h
    simp at hop
  | cons g rest ih =>
    intro ops h op hop
    simp only [configureGroups] at h
    split at h
    · exact absurd h (by simp)
    · rename_i ops1 h1
      split at h
      · exact absurd h (by simp)
      · rename_i more h2
        cases h
        rcases List.mem_append.mp hop with hmem | hmem
        · exact groupOps_allAdds _ _ h1 op hmem
        · exact ih _ h2 op hmem

theorem allAdds_deleteCount (t : List TableOp)
    (h : ∀ op ∈ t, isAddEntry op = true) : deleteCount t = 0 := by
  rw [deleteCount, List.countP_eq_zero]
  intro op hop
  have := h op hop
  cases op <;> simp_all [isAddEntry, isDeleteEntry]

theorem configure_switch_deleteCount (cfg : SwitchConfig) (t : List TableOp)
    (h : configure_switch cfg = .ok t) : deleteCount t = 0 :=
  allAdds_deleteCount t (configureGroups_allAdds cfg.ecmpGroups t h)

theorem runOps_spec (oracle : Nat → RpcResult) :
    ∀ (ops : List TableOp) (k : Nat),
    (runOps oracle k ops).2 = k + ops.length ∧
    (runOps oracle k ops).1.length = ops.length := by
  intro ops
  induction ops with
  | nil => intro k; simp [runOps]
  | cons op rest ih =>
    intro k
    have hadd : (add_table_entry oracle k).2 = k + 1 := by
      cases h : oracle k <;> simp [add_table_entry, h]
    have := ih (add_table_entry oracle k).2
    simp only [runOps, List.length_cons]
    constructor
    · rw [this.1, hadd]; omega
    · simp [this.2]

theorem sysReaches_done (cfg : List Nat) {s : ProbeSysState} {evs : List Nat}
    {s2 : ProbeSysState} (h : SysReaches cfg s evs s2) :
    s.pc = ThreadPc.done → evs = [] := by
  induction h with
  | refl s => intro _; rfl
  | step hstep hrest ih =>
    intro hdone
    cases hstep with
    | thread t =>
      simp only at hdone
      subst hdone
      cases t
    | stopSignal s =>
      simpa [Option.toList] using ih hdone

/-! ## Claim theorems -/

/-- Claim C1: for every destination ToR id, source MAC and destination
MAC (with the emission timestamp and the ToR id in 32-bit range, as
`int_to_bytes(.., 4)` requires), the probe packet built by
`create_hula_probe` carries, immediately after the link-layer header, the
fixed-layout HULA header: message type (1 byte, value 1), hop count
(1 byte, zero), path utilization (2 bytes, zero), origination timestamp
(4 bytes, the emission time `ts`), destination ToR identifier (4 bytes),
in that order. -/
theorem hula_probe_header_layout (ts tor : Int) (srcM dstM : List Nat)
    (h0 : 0 ≤ ts) (h1 : ts < 4294967296) (h2 : 0 ≤ tor) (h3 : tor < 4294967296) :
    create_hula_probe ts tor srcM dstM =
      .ok ⟨srcM, dstM, 0x1234, [1, 0, 0, 0] ++ natToBE ts.toNat 4 ++ natToBE tor.toNat 4⟩ ∧
    ([1, 0, 0, 0] ++ natToBE ts.toNat 4 ++ natToBE tor.toNat 4).length = 12 ∧
    ([1, 0, 0, 0] ++ natToBE ts.toNat 4 ++ natToBE tor.toNat 4).take 1 = [1] ∧
    (([1, 0, 0, 0] ++ natToBE ts.toNat 4 ++ natToBE tor.toNat 4).drop 1).take 1 = [0] ∧
    beToNat ((([1, 0, 0, 0] ++ natToBE ts.toNat 4 ++ natToBE tor.toNat 4).drop 2).take 2) = 0 ∧
    beToNat ((([1, 0, 0, 0] ++ natToBE ts.toNat 4 ++ natToBE tor.toNat 4).drop 4).take 4) = ts.toNat ∧
    beToNat ((([1, 0, 0, 0] ++ natToBE ts.toNat 4 ++ natToBE tor.toNat 4).drop 8).take 4) = tor.toNat := by
  have e4 : ((256 : Int) ^ 4) = 4294967296 := by norm_num
  have e4n : ((256 : Nat) ^ 4) = 4294967296 := by norm_num
  have hts := int_to_bytes_ok ts 4 h0 (by rw [e4]; exact h1)
  have htor := int_to_bytes_ok tor 4 h2 (by rw [e4]; exact h3)
  have htslen : (natToBE ts.toNat 4).length = 4 := natToBE_length _ _
  have htsval : beToNat (natToBE ts.toNat 4) = ts.toNat :=
    beToNat_natToBE _ _ (by rw [e4n]; omega)
  have htorval : beToNat (natToBE tor.toNat 4) = tor.toNat :=
    beToNat_natToBE _ _ (by rw [e4n]; omega)
  refine ⟨?_, ?_, rfl, rfl, rfl, ?_, ?_⟩
  · simp only [create_hula_probe]
    rw [hts, htor]
  · simp [natToBE_length]
  · show beToNat ((natToBE ts.toNat 4 ++ natToBE tor.toNat 4).take 4) = ts.toNat
    rw [List.take_left' htslen, htsval]
  · show beToNat ((natToBE ts.toNat 4 ++ natToBE tor.toNat 4).drop 4) = tor.toNat
    rw [List.drop_left' htslen, htorval]

/-- Claim C1 witness: the probe for ToR 3 emitted at time 100. -/
theorem hula_probe_header_layout_witness :
    create_hula_probe 100 3 [0, 0, 0, 0, 0, 1] [2, 2, 2, 2, 2, 2] =
      .ok ⟨[0, 0, 0, 0, 0, 1], [2, 2, 2, 2, 2, 2], 0x1234,
        [1, 0, 0, 0, 0, 0, 0, 100, 0, 0, 0, 3]⟩ :=
  (hula_probe_header_layout 100 3 [0, 0, 0, 0, 0, 1] [2, 2, 2, 2, 2, 2]
    (by norm_num) (by norm_num) (by norm_num) (by norm_num)).1

/-- Claim C2: for every switch configuration and every ECMP group in it
(with group id, ports and path count in the 2-byte range `int_to_bytes`
requires), the next-hop loop of `configure_switch` assigns hash-bucket
indices exactly and densely `0..num_paths-1` to the next hops in their
input-list order (`List.enum` pairs each next hop with its position), the
group entry carries `num_paths = len(next_hops)`, and the same input
always produces the identical trace (two-run equality). -/
theorem ecmp_bucket_assignment (cfg : SwitchConfig) (g : EcmpGroup)
    (_hmem : g ∈ cfg.ecmpGroups) (hg0 : 0 ≤ g.groupId) (hg1 : g.groupId < 65536)
    (hports : ∀ nh ∈ g.nextHops, 0 ≤ nh.port ∧ nh.port < 65536)
    (hlen : g.nextHops.length < 65536) :
    nextHopOps g.groupId 0 g.nextHops = .ok ((g.nextHops.enum).map fun pr =>
      TableOp.addEntry "ecmp_nhop"
        [.exact (natToBE g.groupId.toNat 2), .exact (natToBE pr.1 2)]
        "set_nhop" [pr.2.mac, natToBE pr.2.port.toNat 2]) ∧
    add_ecmp_group g.dstPfx g.pfxLen g.groupId (Int.ofNat g.nextHops.length) =
      (int_to_bytes (ip_to_int g.dstPfx) 4).map (fun key =>
        TableOp.addEntry "ecmp_group" [.lpm key g.pfxLen] "set_ecmp_group"
          [natToBE g.groupId.toNat 2, natToBE g.nextHops.length 2]) ∧
    configure_switch cfg = configure_switch cfg := by
  refine ⟨?_, ?_, rfl⟩
  · have h := nextHopOps_enumFrom g.groupId hg0 hg1 g.nextHops 0 hports (by omega)
    simpa [List.enum] using h
  · have e2 : ((256 : Int) ^ 2) = 65536 := by norm_num
    have hgid := int_to_bytes_ok g.groupId 2 hg0 (by rw [e2]; exact hg1)
    have hnp := int_to_bytes_ok (Int.ofNat g.nextHops.length) 2 (Int.ofNat_zero_le _)
      (by rw [e2, Int.ofNat_eq_natCast]; exact_mod_cast hlen)
    rw [show (Int.ofNat g.nextHops.length).toNat = g.nextHops.length from rfl] at hnp
    cases hip : int_to_bytes (ip_to_int g.dstPfx) 4 with
    | error e =>
      simp only [add_ecmp_group]
      rw [hip]
      rfl
    | ok key =>
      simp only [add_ecmp_group]
      rw [hip, hgid, hnp]
      rfl

/-- Claim C2 witness: the scenario configuration, buckets 0 and 1. -/
theorem ecmp_bucket_assignment_witness :
    nextHopOps scenarioGroup.groupId 0 scenarioGroup.nextHops =
      .ok ((scenarioGroup.nextHops.enum).map fun pr =>
        TableOp.addEntry "ecmp_nhop"
          [.exact (natToBE scenarioGroup.groupId.toNat 2), .exact (natToBE pr.1 2)]
          "set_nhop" [pr.2.mac, natToBE pr.2.port.toNat 2]) ∧
    add_ecmp_group scenarioGroup.dstPfx scenarioGroup.pfxLen scenarioGroup.groupId
        (Int.ofNat scenarioGroup.nextHops.length) =
      (int_to_bytes (ip_to_int scenarioGroup.dstPfx) 4).map (fun key =>
        TableOp.addEntry "ecmp_group" [.lpm key scenarioGroup.pfxLen] "set_ecmp_group"
          [natToBE scenarioGroup.groupId.toNat 2, natToBE scenarioGroup.nextHops.length 2]) ∧
    configure_switch scenarioConfig = configure_switch scenarioConfig :=
  ecmp_bucket_assignment scenarioConfig scenarioGroup (by decide) (by decide)
    (by decide) (by decide) (by decide)

/-- Claim C3 counterexample: the scenario (one group for `10.0.1.0/24`,
next hops on ports 1 and 2) issues three `addEntry` calls, not two as the
claim's main wording states. -/
theorem ecmp_scenario_counterexample :
    configure_switch scenarioConfig = .ok scenarioOps ∧
    addCount scenarioOps = 3 ∧ ¬ addCount scenarioOps = 2 := by
  refine ⟨rfl, rfl, ?_⟩
  decide

/-- Claim C3 (amended): the scenario's first run installs one group
entry plus bucket 0 → port 1 and bucket 1 → port 2 via exactly three
`addEntry` calls (group + two next hops, the parenthetical of the spec)
and zero delete operations. Hash key `[0, 0]` is bucket 0 with port bytes
`[0, 1]` (port 1); hash key `[0, 1]` is bucket 1 with port bytes `[0, 2]`
(port 2). -/
theorem ecmp_scenario_amended :
    configure_switch scenarioConfig = .ok scenarioOps ∧
    scenarioOps.length = 3 ∧ addCount scenarioOps = 3 ∧ deleteCount scenarioOps = 0 ∧
    scenarioOps.get? 1 = some (.addEntry "ecmp_nhop" [.exact [0, 1], .exact [0, 0]]
      "set_nhop" [[0, 0, 0, 0, 1, 1], [0, 1]]) ∧
    scenarioOps.get? 2 = some (.addEntry "ecmp_nhop" [.exact [0, 1], .exact [0, 1]]
      "set_nhop" [[0, 0, 0, 0, 1, 2], [0, 2]]) :=
  ⟨rfl, rfl, rfl, rfl, rfl, rfl⟩

/-- Claim C4 counterexample: running `configure_switch` twice against the
scenario configuration with no state change in between issues three
`addEntry` operations on the second run, not zero: the controller keeps
no record of applied entries. -/
theorem reconcile_idempotence_counterexample :
    runTwice scenarioConfig = .ok (scenarioOps, scenarioOps) ∧
    addCount scenarioOps = 3 ∧ ¬ addCount scenarioOps = 0 := by
  refine ⟨rfl, rfl, ?_⟩
  decide

/-- Claim C4 (amended): running `configure_switch` twice in succession
against the same configuration with no state change in between issues on
the second run exactly the same operations as on the first (every
`addEntry` is re-issued, rather than zero additional operations), and
zero `deleteEntry` operations on both runs. -/
theorem reconcile_rerun_reissues (cfg : SwitchConfig) (t1 t2 : List TableOp)
    (h : runTwice cfg = .ok (t1, t2)) :
    t2 = t1 ∧ addCount t2 = addCount t1 ∧
    deleteCount t1 = 0 ∧ deleteCount t2 = 0 := by
  cases hc : configure_switch cfg with
  | error e =>
    simp [runTwice, hc] at h
  | ok t =>
    simp only [runTwice, hc, Except.ok.injEq, Prod.mk.injEq] at h
    obtain ⟨h1, h2⟩ := h
    subst h1
    subst h2
    exact ⟨rfl, rfl, configure_switch_deleteCount cfg _ hc,
      configure_switch_deleteCount cfg _ hc⟩

/-- Claim C4 witness: the amended statement at the scenario
configuration. -/
theorem reconcile_rerun_reissues_witness :
    scenarioOps = scenarioOps ∧ addCount scenarioOps = addCount scenarioOps ∧
    deleteCount scenarioOps = 0 ∧ deleteCount scenarioOps = 0 :=
  reconcile_rerun_reissues scenarioConfig scenarioOps scenarioOps rfl

/-- Claim C5 counterexample: on the channel whose first call fails and
whose second call would succeed, `add_table_entry` performs exactly one
RPC attempt (the call counter moves from 0 to 1, not past 2) and returns
the failure result: the operation is not retried, so there is no retry
bound or backoff to reach. -/
theorem rpc_retry_counterexample :
    failThenOk 0 = .err ∧ failThenOk 1 = .ok ∧
    add_table_entry failThenOk 0 = (false, 1) ∧
    ¬ 2 ≤ (add_table_entry failThenOk 0).2 := by
  decide

/-- Claim C5 (amended): when an `addEntry` or `deleteEntry` operation
fails, it is not retried: the manager makes exactly one RPC attempt per
invocation, returns `False` (and `True` exactly when the single attempt
succeeds), and the configuration loop continues with the remaining
entries without rollback — every entry is still attempted, one RPC call
each, whatever the earlier outcomes were. -/
theorem rpc_single_attempt (oracle : Nat → RpcResult) (k : Nat) :
    (add_table_entry oracle k).2 = k + 1 ∧
    ((add_table_entry oracle k).1 = true ↔ oracle k = .ok) ∧
    (delete_table_entry oracle k).2 = k + 1 ∧
    ((delete_table_entry oracle k).1 = true ↔ oracle k = .ok) ∧
    ∀ ops : List TableOp, (runOps oracle k ops).2 = k + ops.length ∧
      (runOps oracle k ops).1.length = ops.length := by
  refine ⟨?_, ?_, ?_, ?_, fun ops => runOps_spec oracle ops k⟩
  all_goals cases h : oracle k <;> simp [add_table_entry, delete_table_entry, h]

/-- Claim C6: a connection failure on one switch does not prevent
configuration of the others. Skipping is local: a switch whose `connect`
fails is dropped from the pass and the pass continues; in a two-switch
pass where connecting to B fails and to A succeeds, the result is exactly
A's configuration, whichever order the switches appear in. -/
theorem connect_failure_isolation :
    (∀ (conn : String → Bool) (s : SwitchConfig) (rest : List SwitchConfig),
      conn s.switchId = false →
      populate_from_topology conn (s :: rest) = populate_from_topology conn rest) ∧
    (∀ (conn : String → Bool) (swA swB : SwitchConfig),
      conn swA.switchId = true → conn swB.switchId = false →
      populate_from_topology conn [swA, swB] =
        (configure_switch swA).map (fun ops => [(swA.switchId, ops)]) ∧
      populate_from_topology conn [swB, swA] =
        (configure_switch swA).map (fun ops => [(swA.switchId, ops)])) := by
  constructor
  · intro conn s rest hs
    simp [populate_from_topology, hs]
  · intro conn swA swB hA hB
    constructor
    · cases hc : configure_switch swA with
      | error e => simp [populate_from_topology, hA, hB, hc, Except.map]
      | ok ops => simp [populate_from_topology, hA, hB, hc, Except.map]
    · cases hc : configure_switch swA with
      | error e => simp [populate_from_topology, hA, hB, hc, Except.map]
      | ok ops => simp [populate_from_topology, hA, hB, hc, Except.map]

/-- Claim C6 witness: switch `s1` (the scenario switch) is configured
even though connecting to switch `s2` fails, in both orders. -/
theorem connect_failure_isolation_witness :
    populate_from_topology (fun i => i == "s1") [scenarioConfig, ⟨"s2", []⟩] =
      (configure_switch scenarioConfig).map
        (fun ops => [(scenarioConfig.switchId, ops)]) ∧
    populate_from_topology (fun i => i == "s1") [⟨"s2", []⟩, scenarioConfig] =
      (configure_switch scenarioConfig).map
        (fun ops => [(scenarioConfig.switchId, ops)]) :=
  connect_failure_isolation.2 (fun i => i == "s1") scenarioConfig ⟨"s2", []⟩
    (by decide) (by decide)

/-- Claim C7: after `stop_probe_injection` returns, no further probe
packets are ever sent. The call sets `running := False` and `join()`s:
once the thread has been observed at `done` (which is what `join`
returning means), every further execution emits no packet; and once the
flag is false, the very next loop-head check (the next tick boundary)
exits the loop without sending. -/
theorem probe_stop_join (cfg : List Nat) :
    (∀ (s : ProbeSysState) (evs : List Nat) (s2 : ProbeSysState),
      s.pc = ThreadPc.done → SysReaches cfg s evs s2 → evs = []) ∧
    (∀ (ev : Option Nat) (pc2 : ThreadPc),
      ThreadStep cfg false ThreadPc.loopHead ev pc2 →
      ev = none ∧ pc2 = ThreadPc.done) := by
  constructor
  · intro s evs s2 hdone hr
    exact sysReaches_done cfg hr hdone
  · intro ev pc2 h
    cases h
    exact ⟨rfl, rfl⟩

/-- Claim C7 witness: a concrete stopped execution (thread at `done`,
empty event list) and the concrete loop-head exit step. -/
theorem probe_stop_join_witness :
    ([] : List Nat) = [] ∧
    ((none : Option Nat) = none ∧ ThreadPc.done = ThreadPc.done) :=
  ⟨(probe_stop_join [5]).1 ⟨false, ThreadPc.done⟩ [] ⟨false, ThreadPc.done⟩ rfl
    (SysReaches.refl ⟨false, ThreadPc.done⟩),
   (probe_stop_join [5]).2 none ThreadPc.done ThreadStep.checkStop⟩

/-- Claim C8: for every pair of candidate register readings with equal
utilization values, the flowlet path-switch rule emits no switch intent:
equal utilization never replaces the installed entry (hysteresis). The
rule is modelled from the spec (§4.5), as its code is not under `src/`. -/
theorem flowlet_hysteresis (cur cand : RegisterReading)
    (h : cand.util = cur.util) :
    flowletSwitchIntent cur cand = none := by
  have hneg : ¬(cand.port ≠ cur.port ∧ cur.ts < cand.ts ∧ cand.util < cur.util) := by
    rintro ⟨-, -, hlt⟩
    omega
  simp [flowletSwitchIntent, hneg]

/-- Claim C8 witness: two readings at utilization 50 on different ports,
the candidate fresher; still no switch intent. -/
theorem flowlet_hysteresis_witness :
    flowletSwitchIntent ⟨50, 1, 10⟩ ⟨50, 2, 20⟩ = none :=
  flowlet_hysteresis ⟨50, 1, 10⟩ ⟨50, 2, 20⟩ rfl

/-- Claim C9: `read_register` never raises (it is a total function of the
RPC outcome): it returns the value read on success and the sentinel `-1`
on any failure, so a successful read of a register holding `-1` is
indistinguishable from a failed read. -/
theorem read_register_sentinel (v : Int) (e : Unit) :
    read_register (.ok v) = v ∧
    read_register (.error e) = -1 ∧
    read_register (.ok (-1)) = read_register (.error e) :=
  ⟨rfl, rfl, rfl⟩

/-- Claim C10: `int_to_bytes num n` raises `OverflowError` (the `.error`
case) exactly when `num` is negative or `num ≥ 256^n`; consequently a
call to `add_ecmp_group` or `add_next_hop` with a group id, hash value or
port outside `0..65535` propagates the exception (returns `.error`, an
unhandled raise) instead of returning an entry. -/
theorem int_to_bytes_overflow_raises :
    (∀ (num : Int) (n : Nat),
      int_to_bytes num n = .error () ↔ (num < 0 ∨ (256 : Int) ^ n ≤ num)) ∧
    (∀ (d : Ip) (pl : Nat) (gid np : Int),
      d.a < 256 → d.b < 256 → d.c < 256 → d.d < 256 →
      (gid < 0 ∨ 65536 ≤ gid) → add_ecmp_group d pl gid np = .error ()) ∧
    (∀ (gid hv p : Int) (m : List Nat),
      (gid < 0 ∨ 65536 ≤ gid) → add_next_hop gid hv p m = .error ()) ∧
    (∀ (gid hv p : Int) (m : List Nat),
      0 ≤ gid → gid < 65536 → (hv < 0 ∨ 65536 ≤ hv) →
      add_next_hop gid hv p m = .error ()) ∧
    (∀ (gid hv p : Int) (m : List Nat),
      0 ≤ gid → gid < 65536 → 0 ≤ hv → hv < 65536 → (p < 0 ∨ 65536 ≤ p) →
      add_next_hop gid hv p m = .error ()) := by
  have e2 : ((256 : Int) ^ 2) = 65536 := by norm_num
  refine ⟨?_, ?_, ?_, ?_, ?_⟩
  · intro num n
    by_cases h : num < 0 ∨ (256 : Int) ^ n ≤ num <;> simp [int_to_bytes, h]
  · intro d pl gid np ha hb hc hd hgid
    have hipN : d.a * 2 ^ 24 + d.b * 2 ^ 16 + d.c * 2 ^ 8 + d.d < 4294967296 := by
      omega
    have hip : int_to_bytes (ip_to_int d) 4 =
        .ok (natToBE (ip_to_int d).toNat 4) := by
      apply int_to_bytes_ok
      · exact Int.natCast_nonneg _
      · rw [show ((256 : Int) ^ 4) = 4294967296 from by norm_num, ip_to_int]
        exact_mod_cast hipN
    have hg : int_to_bytes gid 2 = .error () := int_to_bytes_err gid 2 (by omega)
    simp only [add_ecmp_group]
    rw [hip, hg]
  · intro gid hv p m hgid
    have hg : int_to_bytes gid 2 = .error () := int_to_bytes_err gid 2 (by omega)
    simp only [add_next_hop]
    rw [hg]
  · intro gid hv p m hg0 hg1 hhv
    have hg : int_to_bytes gid 2 = .ok (natToBE gid.toNat 2) :=
      int_to_bytes_ok gid 2 hg0 (by rw [e2]; exact hg1)
    have hh : int_to_bytes hv 2 = .error () := int_to_bytes_err hv 2 (by omega)
    simp only [add_next_hop]
    rw [hg, hh]
  · intro gid hv p m hg0 hg1 hv0 hv1 hp
    have hg : int_to_bytes gid 2 = .ok (natToBE gid.toNat 2) :=
      int_to_bytes_ok gid 2 hg0 (by rw [e2]; exact hg1)
    have hh : int_to_bytes hv 2 = .ok (natToBE hv.toNat 2) :=
      int_to_bytes_ok hv 2 hv0 (by rw [e2]; exact hv1)
    have hpp : int_to_bytes p 2 = .error () := int_to_bytes_err p 2 (by omega)
    simp only [add_next_hop]
    rw [hg, hh, hpp]

/-- Claim C10 witness: concrete out-of-range arguments all raise. -/
theorem int_to_bytes_overflow_raises_witness :
    int_to_bytes 65536 2 = .error () ∧
    add_ecmp_group ⟨10, 0, 1, 0⟩ 24 65536 2 = .error () ∧
    add_next_hop (-1) 0 1 [0, 0, 0, 0, 1, 1] = .error () ∧
    add_next_hop 1 65536 1 [0, 0, 0, 0, 1, 1] = .error () ∧
    add_next_hop 1 0 70000 [0, 0, 0, 0, 1, 1] = .error () :=
  ⟨(int_to_bytes_overflow_raises.1 65536 2).mpr (Or.inr (by norm_num)),
   int_to_bytes_overflow_raises.2.1 ⟨10, 0, 1, 0⟩ 24 65536 2
     (by norm_num) (by norm_num) (by norm_num) (by norm_num) (Or.inr (by norm_num)),
   int_to_bytes_overflow_raises.2.2.1 (-1) 0 1 [0, 0, 0, 0, 1, 1]
     (Or.inl (by norm_num)),
   int_to_bytes_overflow_raises.2.2.2.1 1 65536 1 [0, 0, 0, 0, 1, 1]
     (by norm_num) (by norm_num) (Or.inr (by norm_num)),
   int_to_bytes_overflow_raises.2.2.2.2 1 0 70000 [0, 0, 0, 0, 1, 1]
     (by norm_num) (by norm_num) (by norm_num) (by norm_num) (Or.inr (by norm_num))⟩

end NAP
